import Mathlib

/-!
Shallow embedding of the phase-derivation algorithms of
analysis_engine/flight_phase.py.

A sampled signal is a `List (Option ℚ)`: `none` models a masked (invalid)
sample of a numpy masked array.  Slices are half-open index pairs in sample
space.  The numpy and analysis_engine.library primitives consumed by the
module are not part of src/, so they are modelled from their documented
contracts (see the doc comment of each such definition); everything else is
translated directly from flight_phase.py.

Python code that can raise is embedded as `Except String`, the `.error`
carrying the Python exception name.
-/

set_option autoImplicit false

attribute [local semireducible] Rat.mul Rat.inv Rat.add Rat.sub Rat.ofScientific

instance {ε α : Type} [DecidableEq ε] [DecidableEq α] : DecidableEq (Except ε α) := fun
  | .error e, .error f =>
    if h : e = f then .isTrue (by rw [h]) else .isFalse (fun c => h (Except.error.inj c))
  | .error _, .ok _ => .isFalse (fun c => Except.noConfusion c)
  | .ok _, .error _ => .isFalse (fun c => Except.noConfusion c)
  | .ok a, .ok b =>
    if h : a = b then .isTrue (by rw [h]) else .isFalse (fun c => h (Except.ok.inj c))

/-- Python slice a[s:e] of a signal (clamped at both ends, empty when s ≥ e). -/
def sliceL (a : List (Option ℚ)) (s e : ℕ) : List (Option ℚ) :=
  (a.take e).drop s

/-- Sample of a signal at index i; out-of-range reads are masked. -/
def getv (a : List (Option ℚ)) (i : ℕ) : Option ℚ :=
  a.getD i none

/-- Modelled from the spec: np.ma.count, the number of valid samples. -/
def ma_count (l : List (Option ℚ)) : ℕ :=
  l.countP (fun o => o.isSome)

/-- Modelled from the spec: first_valid_sample of analysis_engine.library,
the index and value of the first valid sample, none when all are masked. -/
def first_valid_sample : List (Option ℚ) → Option (ℕ × ℚ)
  | [] => none
  | some v :: _ => some (0, v)
  | none :: rest => (first_valid_sample rest).map (fun p => (p.1 + 1, p.2))

/-- Modelled from the spec: last_valid_sample of analysis_engine.library,
the index and value of the last valid sample, none when all are masked. -/
def last_valid_sample (l : List (Option ℚ)) : Option (ℕ × ℚ) :=
  (first_valid_sample l.reverse).map (fun p => (l.length - 1 - p.1, p.2))

/-- Modelled from the spec: np.ma.flatnotmasked_edges, the inclusive indices
of the first and the last valid sample, or none when every sample is masked
(numpy returns None in that case). -/
def flatnotmasked_edges (l : List (Option ℚ)) : Option (ℕ × ℕ) :=
  match first_valid_sample l, last_valid_sample l with
  | some p, some q => some (p.1, q.1)
  | _, _ => none

/-- Pointwise absolute value of a signal (np.ma.abs). -/
def abs_map (a : List (Option ℚ)) : List (Option ℚ) :=
  a.map (Option.map (fun x => |x|))

/-- A pair of adjacent samples straddles the target value: the crossing test
of index_at_value (the product of the two offsets from the target is ≤ 0);
pairs with a masked member never cross. -/
def cross_pair (x y : Option ℚ) (t : ℚ) : Bool :=
  match x, y with
  | some u, some w => decide ((u - t) * (w - t) ≤ 0)
  | _, _ => false

/-- Modelled from the spec: index_at_value on a forward slice(p, q) — the
first crossing of the target scanning forward; sample-resolution model of
the interpolating library primitive, returning the first index of the
crossing pair in scan order. -/
def index_at_value_fwd (a : List (Option ℚ)) (t : ℚ) (p q : ℕ) : Option ℕ :=
  (List.range' p (q - 1 - p)).find? (fun i => cross_pair (getv a i) (getv a (i + 1)) t)

/-- Modelled from the spec: index_at_value on a backward slice(q, p, -1) —
the first crossing of the target scanning backward (the latest crossing of
the range), returning the first index of the crossing pair in scan order. -/
def index_at_value_rev (a : List (Option ℚ)) (t : ℚ) (q p : ℕ) : Option ℕ :=
  ((List.range' (p + 2) (q - p - 1)).reverse).find?
    (fun i => cross_pair (getv a i) (getv a (i - 1)) t)

/-- Modelled from the spec: index_at_value with endpoint closing on a
backward slice(q, p, -1), used for the 200 ft height clip — the last index
where the signal was above the target before dropping to or below it. -/
def index_at_value_closing_rev (h : List (Option ℚ)) (t : ℚ) (q p : ℕ) : Option ℕ :=
  (((List.range' (p + 2) (q - p - 1)).reverse).find?
    (fun i => match getv h i, getv h (i - 1) with
      | some x, some y => decide (x ≤ t ∧ t < y)
      | _, _ => false)).map (fun i => i - 1)

/-- Fraction of valid samples within the tightest valid-edge-to-valid-edge
sub-range slice(ss + f, ss + l) computed by scan_ils (the Python slice
excludes the final valid sample, and so does this model). -/
def frac_valid (dots : List (Option ℚ)) (ss f l : ℕ) : ℚ :=
  ((ma_count (sliceL dots (ss + f) (ss + l)) : ℚ)) / (((sliceL dots (ss + f) (ss + l)).length : ℚ))

/-- Loss-of-capture search of scan_ils: inspect the last valid sample of the
scan slice; below 2.5 dots the beam is still captured at the interval end
(loss index is the absolute last-valid index plus one), otherwise scan
backward from the interval end for the last crossing of 2.5 dots; `.ok none`
models the Python `return None`, `.error` the Python TypeError raised when
every sample of the slice is masked (None arithmetic). -/
def scan_ils_loss (dots : List (Option ℚ)) (ss se : ℕ) : Except String (Option ℕ) :=
  let ilsAbs := abs_map dots
  match last_valid_sample (sliceL ilsAbs ss se) with
  | none => .error ("TypeError")
  | some p =>
    if p.2 < 5 / 2 then .ok (some (ss + p.1 + 1))
    else .ok (index_at_value_rev ilsAbs (5 / 2) se ss)

/-- Glideslope adjustment of the loss index: for the glideslope beam the
loss index is clipped to the closing-edge index where height last passed
200 ft, when such an index exists. -/
def scan_ils_lost_adj (beam : String) (dots h : List (Option ℚ)) (ss se : ℕ) :
    Except String (Option ℕ) :=
  match scan_ils_loss dots ss se with
  | .error e => .error e
  | .ok none => .ok none
  | .ok (some l0) =>
    if beam = "glideslope" then
      match index_at_value_closing_rev h 200 se ss with
      | some i200 => .ok (some (min l0 i200))
      | none => .ok (some l0)
    else .ok (some l0)

/-- Capture-start search of scan_ils: look backward from the loss index for
the last crossing of 2.5 dots; when found (and nonzero, mirroring the Python
truthiness test) scan forward from there to the loss index for the first
crossing of 1.0 dot; otherwise inspect the first valid sample between the
interval start and the loss index — below 1.0 dot the capture index is that
first valid index (absolute), else the first forward crossing of 1.0 dot
from the interval start. -/
def scan_ils_capture (dots : List (Option ℚ)) (ss ilsLost : ℕ) : Except String (Option ℕ) :=
  let ilsAbs := abs_map dots
  let fallback : Except String (Option ℕ) :=
    match first_valid_sample (sliceL ilsAbs ss ilsLost) with
    | none => .error ("TypeError")
    | some p =>
      if p.2 < 1 then .ok (some (ss + p.1))
      else .ok (index_at_value_fwd ilsAbs 1 ss ilsLost)
  match index_at_value_rev ilsAbs (5 / 2) ilsLost ss with
  | some i => if i = 0 then fallback else .ok (index_at_value_fwd ilsAbs 1 i ilsLost)
  | none => fallback

/-- Body of scan_ils after the quality gate: loss search, glideslope height
clip, capture search, and the final slice(capture, loss). -/
def scan_ils_body (beam : String) (dots h : List (Option ℚ)) (ss se : ℕ) :
    Except String (Option (ℕ × ℕ)) :=
  match scan_ils_lost_adj beam dots h ss se with
  | .error e => .error e
  | .ok none => .ok none
  | .ok (some lost) =>
    match scan_ils_capture dots ss lost with
    | .error e => .error e
    | .ok none => .ok none
    | .ok (some cap) => .ok (some (cap, lost))

/-- scan_ils of flight_phase.py: reject unknown beams (ValueError), find the
valid edges of the scan slice (a TypeError when all samples are masked, as
numpy then yields None), apply the quality gate (at least 5 valid samples
and a valid fraction of at least 0.4 within the tightest valid range), then
run the loss and capture searches. -/
def scan_ils (beam : String) (dots h : List (Option ℚ)) (ss se : ℕ) :
    Except String (Option (ℕ × ℕ)) :=
  if ¬(beam = "localizer" ∨ beam = "glideslope") then .error ("ValueError")
  else
    match flatnotmasked_edges (sliceL dots ss se) with
    | none => .error ("TypeError")
    | some fl =>
      if ma_count (sliceL dots ss se) < 5 ∨ frac_valid dots ss fl.1 fl.2 < 2 / 5 then
        .ok none
      else scan_ils_body beam dots h ss se

/-- Whether the predicate holds at index i of the list (false out of range). -/
def pAt {α : Type} (p : α → Bool) (l : List α) (i : ℕ) : Bool :=
  match l[i]? with
  | some c => p c
  | none => false

/-- Length of the initial run of elements satisfying the predicate. -/
def runLenP {α : Type} (p : α → Bool) : List α → ℕ
  | [] => 0
  | c :: rest => if p c then runLenP p rest + 1 else 0

/-- Modelled from the spec: np.ma.clump_unmasked composed with a masking
predicate — the maximal runs (as half-open index pairs, in order) on which
the predicate holds.  numpy finds clump boundaries by differencing the mask,
which is exactly the run-start test used here. -/
def clumpP {α : Type} (p : α → Bool) (l : List α) : List (ℕ × ℕ) :=
  (List.range l.length).filterMap (fun s =>
    if pAt p l s && (s == 0 || !(pAt p l (s - 1))) then
      some (s, s + 1 + runLenP p (l.drop (s + 1)))
    else none)

/-- Modelled from the spec: numpy.ma.extras._ezclump on a boolean array —
every maximal run of equal values, in order (the first run starts at 0). -/
def ezclump (l : List Bool) : List (ℕ × ℕ) :=
  (List.range l.length).filterMap (fun s =>
    if s == 0 || (l.getD (s - 1) false != l.getD s false) then
      some (s, s + 1 + runLenP (fun c => c == l.getD s false) (l.drop (s + 1)))
    else none)

/-- Python slices[::2] (every other element starting at the first). -/
def everyOther {α : Type} : List α → List α
  | [] => []
  | [a] => [a]
  | a :: _ :: rest => a :: everyOther rest

/-- The elements of a list sitting at odd positions. -/
def oddEntries {α : Type} (l : List α) : List α :=
  ((List.enumFrom 0 l).filter (fun q => q.1 % 2 == 1)).map Prod.snd

/-- slices_overlap of analysis_engine.library on two concrete slices. -/
def slices_overlap (a b : ℕ × ℕ) : Bool :=
  a.1 < b.2 && b.1 < a.2

/-- slices_and of analysis_engine.library restricted to a single airborne
slice: each run clipped to the slice, empty intersections dropped. -/
def slices_and_one (air : ℕ × ℕ) (runs : List (ℕ × ℕ)) : List (ℕ × ℕ) :=
  runs.filterMap (fun r =>
    if max r.1 air.1 < min r.2 air.2 then some (max r.1 air.1, min r.2 air.2) else none)

/-- Combined gear red-warning flicker signal: the elementwise OR of the
three positional warning discretes (validity flags of these discretes are
not modelled; the derive rules only read the first sample and the run
structure).  GearExtending combines left with right and then nose, and
GearRetracting tests each against the Warning state and ORs — both reduce
to the same elementwise OR. -/
def gear_warn_or3 (l r n : List Bool) : List Bool :=
  List.zipWith or (List.zipWith or l r) n

/-- first_valid_sample on a (fully valid) discrete: the first sample. -/
def first_valid_bool (l : List Bool) : Option Bool :=
  l.head?

/-- Run-parity selection of the gear derive rules: clump the flicker signal
into alternating runs; when the first valid sample is False the first run is
stationary, so the moving runs are slices[1::2], otherwise slices[::2]. -/
def gear_moving_runs (gw : List Bool) : List (ℕ × ℕ) :=
  let slices := ezclump gw
  if first_valid_bool gw == some false then everyOther (slices.drop 1)
  else everyOther slices

/-- Modelled from the spec: find_edges rising edges of the discrete gear
signal within a slice, at sample resolution. -/
def find_edges_rising (raw : List Bool) (a b : ℕ) : List ℕ :=
  (List.range' (a + 1) (b - a - 1)).filter
    (fun i => !(raw.getD (i - 1) false) && raw.getD i false)

/-- Modelled from the spec: find_edges with direction falling_edges. -/
def find_edges_falling (raw : List Bool) (a b : ℕ) : List ℕ :=
  (List.range' (a + 1) (b - a - 1)).filter
    (fun i => raw.getD (i - 1) false && !(raw.getD i false))

/-- Warning-caption mode of the gear transit rules: intersect the moving
runs with each airborne slice and keep a run only when the discrete gear
state one sample before the run start equals priorState (Python index -1
wraps to the last sample when the run starts at 0).  Gear Down is modelled
as true, Up as false. -/
def gear_warn_move_phases (gearDown : List Bool) (priorState : Bool)
    (gw : List Bool) (airs : List (ℕ × ℕ)) : List (ℕ × ℕ) :=
  airs.flatMap (fun air =>
    (slices_and_one air (gear_moving_runs gw)).filter (fun m =>
      gearDown.getD (if m.1 == 0 then gearDown.length - 1 else m.1 - 1) (!priorState)
        == priorState))

/-- Discrete-edge mode: a nominal transit window of 5 seconds starting at
each detected edge. -/
def gear_edge_phases (edges : List ℕ) (freq : ℚ) : List (ℚ × ℚ) :=
  edges.map (fun e => ((e : ℚ), (e : ℚ) + 5 * freq))

/-- GearExtending.derive: with any warning signal present all three are
required (otherwise a DataFrameError carrying the node name and the
aircraft-frame name); warning mode selects moving runs whose prior gear
state is Up; without warning signals, rising edges of the gear discrete
give 5-second nominal transit phases. -/
def gear_extending_derive (gearDown : List Bool)
    (warnL warnN warnR : Option (List Bool)) (frame : Option String)
    (airs : List (ℕ × ℕ)) (freq : ℚ) :
    Except (String × Option String) (List (ℚ × ℚ)) :=
  if warnL.isSome || warnN.isSome || warnR.isSome then
    if !(warnL.isSome && warnN.isSome && warnR.isSome) then
      .error ("Gear Extending", frame)
    else
      .ok ((gear_warn_move_phases gearDown false
              (gear_warn_or3 (warnL.getD []) (warnR.getD []) (warnN.getD [])) airs).map
        (fun m => ((m.1 : ℚ), (m.2 : ℚ))))
  else
    .ok (airs.flatMap (fun air =>
      gear_edge_phases (find_edges_rising gearDown air.1 air.2) freq))

/-- GearRetracting.derive: as GearExtending but the prior gear state must be
Down and the discrete-edge mode uses falling edges. -/
def gear_retracting_derive (gearDown : List Bool)
    (warnL warnN warnR : Option (List Bool)) (frame : Option String)
    (airs : List (ℕ × ℕ)) (freq : ℚ) :
    Except (String × Option String) (List (ℚ × ℚ)) :=
  if warnL.isSome || warnN.isSome || warnR.isSome then
    if !(warnL.isSome && warnN.isSome && warnR.isSome) then
      .error ("Gear Retracting", frame)
    else
      .ok ((gear_warn_move_phases gearDown true
              (gear_warn_or3 (warnL.getD []) (warnR.getD []) (warnN.getD [])) airs).map
        (fun m => ((m.1 : ℚ), (m.2 : ℚ))))
  else
    .ok (airs.flatMap (fun air =>
      gear_edge_phases (find_edges_falling gearDown air.1 air.2) freq))

/-- GearExtended.derive: the maximal runs where the gear discrete reads Down
(clump_unmasked of masked_equal 0); the final run is shortened by one sample
when its stop equals the recording length; with no Down run at all the
Python indexing slice_list[-1] raises an IndexError. -/
def gear_extended_derive (gearDown : List Bool) : Except String (List (ℕ × ℕ)) :=
  let sliceList := clumpP (fun b => b) gearDown
  match sliceList.getLast? with
  | none => .error ("IndexError")
  | some r =>
    if r.2 = gearDown.length then .ok (sliceList.dropLast ++ [(r.1, r.2 - 1)])
    else .ok sliceList

/-- GearRetracted.derive: the maximal runs where the gear discrete reads Up
(clump_unmasked of masked_equal 1), returned unmodified. -/
def gear_retracted_derive (gearDown : List Bool) : List (ℕ × ℕ) :=
  clumpP (fun b => !b) gearDown

/-- Python slice a[s:e] on a plain (fully valid) rational series. -/
def sliceQ (a : List ℚ) (s e : ℕ) : List ℚ :=
  (a.take e).drop s

/-- Holding.derive within one altitude height band starting at index hs:
clump the samples of the long-window turn rate at or above 0.5 deg/s into
turn bands (shifted to absolute indices), then keep a band only when its
sample duration strictly exceeds HOLDING_MIN_TIME times the frequency and
the average groundspeed — the distance between the positions at the band
start and one sample before the band stop, divided by KTS_TO_MPS and by the
full band duration — is strictly below HOLDING_MAX_GSPD.  The settings
constants and the great-circle distance of bearing_and_distance live
outside src/ and are abstract parameters here (modelled from the spec
contract). -/
def holding_bands (minTime maxGspd kts2mps freq : ℚ)
    (turnRate lat lon : List ℚ) (hs he : ℕ)
    (dist : ℚ → ℚ → ℚ → ℚ → ℚ) : List (ℕ × ℕ) :=
  ((clumpP (fun x => decide ((1 : ℚ) / 2 ≤ x)) (sliceQ turnRate hs he)).map
      (fun r => (r.1 + hs, r.2 + hs))).filter (fun r =>
    decide (minTime * freq < ((r.2 - r.1 : ℕ) : ℚ) ∧
      dist (lat.getD r.1 0) (lon.getD r.1 0) (lat.getD (r.2 - 1) 0) (lon.getD (r.2 - 1) 0)
          / kts2mps / ((r.2 - r.1 : ℕ) : ℚ)
        < maxGspd))

/-- TaxiOut.derive: with at least one takeoff, every grounded slice
overlapping the first takeoff produces the phase
(gnd.start + 1, toff.start - 1); integer bounds, so the stop can fall below
the start (and even below zero). -/
def taxi_out_derive (gnds toffs : List (ℕ × ℕ)) : List (ℤ × ℤ) :=
  match toffs with
  | [] => []
  | toff :: _ =>
    gnds.filterMap (fun gnd =>
      if slices_overlap gnd toff then some ((gnd.1 : ℤ) + 1, (toff.1 : ℤ) - 1)
      else none)

/-- get_first of a KTI collection restricted to a slice: the smallest index
within the half-open slice. -/
def kti_get_first (ktis : List ℕ) (s e : ℕ) : Option ℕ :=
  (ktis.filter (fun i => s ≤ i && i < e)).min?

/-- get_last of a KTI collection restricted to a slice. -/
def kti_get_last (ktis : List ℕ) (s e : ℕ) : Option ℕ :=
  (ktis.filter (fun i => s ≤ i && i < e)).max?

/-- Cruise.derive: per climb-cruise-descent slice, begin at the first top of
climb inside it (else the slice start) and end at the last top of descent
inside it (else the slice stop); when the end does not exceed the begin it
is forced to begin + 1 so that the flight always cruises for at least one
sample. -/
def cruise_derive (ccds : List (ℕ × ℕ)) (tocs tods : List ℕ) : List (ℕ × ℕ) :=
  ccds.map (fun ccd =>
    let b := (kti_get_first tocs ccd.1 ccd.2).getD ccd.1
    let e := (kti_get_last tods ccd.1 ccd.2).getD ccd.2
    (b, if e ≤ b then b + 1 else e))

/-- Absolute heading deviation from the datum at the anchor index (ma
arithmetic: masked where the heading or the datum is masked). -/
def head_dev (head : List (Option ℚ)) (run : ℕ) : List (Option ℚ) :=
  head.map (fun x =>
    match x, getv head run with
    | some a, some d => some |a - d|
    | _, _ => none)

/-- Takeoff phase for one fast-slice anchor: the datum heading is taken at
the anchor; the phase start is the backward crossing (within 5 minutes,
clipped at 0 by ℕ subtraction) of the turn-onto-runway threshold, defaulting
to that boundary; the end is the forward crossing (within 5 minutes) of the
initial-climb threshold; the Python truthiness test `if takeoff_begin and
takeoff_end` suppresses the phase when either index is zero or the altitude
crossing is missing. -/
def takeoff_phase_for (turnThresh climbThresh : ℚ) (headFreq altFreq : ℕ)
    (head alt : List (Option ℚ)) (run : ℕ) : List (ℕ × ℕ) :=
  let first := run - 300 * headFreq
  let tb := (index_at_value_rev (head_dev head run) turnThresh run first).getD first
  match index_at_value_fwd alt climbThresh run (run + 300 * altFreq) with
  | none => []
  | some te => if tb ≠ 0 ∧ te ≠ 0 then [(tb, te)] else []

/-- Takeoff.derive: walk the fast slices; a slice with an undefined start
breaks out of the loop (the aircraft was already airborne), every other
slice contributes its anchor phase. -/
def takeoff_derive (turnThresh climbThresh : ℚ) (headFreq altFreq : ℕ)
    (head alt : List (Option ℚ)) : List (Option ℕ × Option ℕ) → List (ℕ × ℕ)
  | [] => []
  | (none, _) :: _ => []
  | (some run, _) :: rest =>
    takeoff_phase_for turnThresh climbThresh headFreq altFreq head alt run ++
      takeoff_derive turnThresh climbThresh headFreq altFreq head alt rest

/-- One iteration of the ClimbCruiseDescent cycle-walking loop at index n:
a falling step closes a phase and advances by one; a rising step followed by
a fall makes a hump phase and advances by two; a rising step with no third
extremum makes an open phase and advances by one; a rising step followed by
another non-fall leaves the index unchanged (the loop then never
terminates). -/
def ccd_step (idxs : List ℕ) (vals : List ℚ) (n : ℕ) :
    ℕ × List (Option ℕ × Option ℕ) :=
  if vals.getD (n + 1) 0 < vals.getD n 0 then
    (n + 1, [(none, some (idxs.getD (n + 1) 0))])
  else if n + 2 < vals.length then
    if vals.getD (n + 2) 0 < vals.getD (n + 1) 0 then
      (n + 2, [(some (idxs.getD n 0), some (idxs.getD (n + 2) 0))])
    else (n, [])
  else (n + 1, [(some (idxs.getD n 0), none)])

/-- The ClimbCruiseDescent while-loop with explicit fuel; none models
nontermination (either the fuel ran out or an iteration left the loop index
unchanged, which repeats forever since the index is the whole loop state). -/
def ccd_loop (idxs : List ℕ) (vals : List ℚ) :
    ℕ → ℕ → Option (List (Option ℕ × Option ℕ))
  | 0, _ => none
  | fuel + 1, n =>
    if n < vals.length - 1 then
      let st := ccd_step idxs vals n
      if st.1 = n then none
      else (ccd_loop idxs vals fuel st.1).map (fun tl => st.2 ++ tl)
    else some []

/-- The peak and trough values strictly alternate in direction: adjacent
extrema differ, and each adjacent pair goes the opposite way from the next
pair. -/
def ccd_alternating (vals : List ℚ) : Prop :=
  (∀ m, m < vals.length - 1 → vals.getD m 0 ≠ vals.getD (m + 1) 0) ∧
    (∀ m, m < vals.length - 2 →
      (vals.getD m 0 < vals.getD (m + 1) 0 ↔ vals.getD (m + 2) 0 < vals.getD (m + 1) 0))

theorem pAt_drop {α : Type} (p : α → Bool) (l : List α) (k i : ℕ) :
    pAt p (l.drop k) i = pAt p l (k + i) := by
  unfold pAt
  rw [List.getElem?_drop]

theorem runLenP_le_length {α : Type} (p : α → Bool) : ∀ l : List α, runLenP p l ≤ l.length := by
  intro l
  induction l with
  | nil => simp [runLenP]
  | cons c rest ih =>
    unfold runLenP
    by_cases h : p c = true
    · simp [h]
      omega
    · simp [h]

theorem pAt_of_lt_runLenP {α : Type} (p : α → Bool) :
    ∀ (l : List α) (i : ℕ), i < runLenP p l → pAt p l i = true := by
  intro l
  induction l with
  | nil => intro i hi; simp [runLenP] at hi
  | cons c rest ih =>
    intro i hi
    unfold runLenP at hi
    by_cases h : p c = true
    · simp only [h, if_true] at hi
      cases i with
      | zero => simpa [pAt]
      | succ j =>
        have : j < runLenP p rest := by omega
        have := ih j this
        simpa [pAt] using this
    · simp [h] at hi

theorem runLenP_boundary {α : Type} (p : α → Bool) :
    ∀ l : List α, runLenP p l = l.length ∨ pAt p l (runLenP p l) = false := by
  intro l
  induction l with
  | nil => left; simp [runLenP]
  | cons c rest ih =>
    unfold runLenP
    by_cases h : p c = true
    · rcases ih with h1 | h2
      · left; simp [h, h1]
      · right; simpa [h, pAt] using h2
    · right
      simp only [h, if_false]
      simp only [pAt, List.getElem?_cons_zero]
      simpa using h

theorem runLenP_unique {α : Type} (p : α → Bool) (l : List α) (k : ℕ)
    (hk : k ≤ l.length) (hall : ∀ i, i < k → pAt p l i = true)
    (hend : k = l.length ∨ pAt p l k = false) : k = runLenP p l := by
  rcases Nat.lt_trichotomy k (runLenP p l) with hlt | heq | hgt
  · exfalso
    have hkAt := pAt_of_lt_runLenP p l k hlt
    rcases hend with h1 | h2
    · have := runLenP_le_length p l
      omega
    · rw [hkAt] at h2
      exact Bool.noConfusion h2
  · exact heq
  · exfalso
    have hAt := hall (runLenP p l) hgt
    rcases runLenP_boundary p l with h1 | h2
    · omega
    · rw [hAt] at h2
      exact Bool.noConfusion h2

/-- Membership in clumpP is exactly being a maximal run of the predicate:
nonempty, within bounds, the predicate holds throughout, and fails (or the
data ends) immediately on either side. -/
theorem mem_clumpP_iff {α : Type} (p : α → Bool) (l : List α) (s e : ℕ) :
    (s, e) ∈ clumpP p l ↔
      (s < e ∧ e ≤ l.length ∧ (∀ i, s ≤ i → i < e → pAt p l i = true) ∧
       (s = 0 ∨ pAt p l (s - 1) = false) ∧ (e = l.length ∨ pAt p l e = false)) := by
  unfold clumpP
  rw [List.mem_filterMap]
  constructor
  · rintro ⟨s', hs', hcond⟩
    rw [List.mem_range] at hs'
    by_cases hc : (pAt p l s' && (s' == 0 || !pAt p l (s' - 1))) = true
    · rw [if_pos hc] at hcond
      have hpair := Option.some.inj hcond
      have hseq : s' = s := congrArg Prod.fst hpair
      have heeq : s + 1 + runLenP p (l.drop (s + 1)) = e := by
        rw [← hseq]
        exact congrArg Prod.snd hpair
      rw [hseq] at hc hs'
      rcases Bool.and_eq_true_iff.mp hc with ⟨hstart, hside⟩
      have hlen : runLenP p (l.drop (s + 1)) ≤ l.length - (s + 1) := by
        have := runLenP_le_length p (l.drop (s + 1))
        simpa using this
      refine ⟨by omega, by omega, ?_, ?_, ?_⟩
      · intro i his hie
        rcases Nat.eq_or_lt_of_le his with h | h
        · rw [← h]; exact hstart
        · have hj : i - (s + 1) < runLenP p (l.drop (s + 1)) := by omega
          have := pAt_of_lt_runLenP p (l.drop (s + 1)) (i - (s + 1)) hj
          rw [pAt_drop] at this
          have harith : s + 1 + (i - (s + 1)) = i := by omega
          rwa [harith] at this
      · rcases Bool.or_eq_true_iff.mp hside with h | h
        · left; simpa using h
        · right; simpa using h
      · rcases runLenP_boundary p (l.drop (s + 1)) with h | h
        · left
          rw [List.length_drop] at h
          omega
        · right
          rw [pAt_drop] at h
          have harith : e = s + 1 + runLenP p (l.drop (s + 1)) := by omega
          rwa [← harith] at h
    · rw [if_neg hc] at hcond
      exact absurd hcond (by simp)
  · rintro ⟨hse, hel, hall, hleft, hright⟩
    refine ⟨s, List.mem_range.mpr (by omega), ?_⟩
    have hstart : pAt p l s = true := hall s (le_refl s) hse
    have hside : (s == 0 || !pAt p l (s - 1)) = true := by
      rcases hleft with h | h
      · subst h; simp
      · simp [h]
    rw [if_pos (by rw [hstart, hside]; rfl)]
    have hrun : e - (s + 1) = runLenP p (l.drop (s + 1)) := by
      apply runLenP_unique
      · rw [List.length_drop]; omega
      · intro i hi
        rw [pAt_drop]
        exact hall (s + 1 + i) (by omega) (by omega)
      · rw [List.length_drop]
        rcases hright with h | h
        · left; omega
        · right
          rw [pAt_drop]
          have harith : s + 1 + (e - (s + 1)) = e := by omega
          rwa [harith]
    have : e = s + 1 + runLenP p (l.drop (s + 1)) := by omega
    rw [← this]

theorem everyOther_cons {α : Type} (a : α) (t : List α) :
    everyOther (a :: t) = a :: everyOther (t.drop 1) := by
  cases t <;> rfl

theorem enumFrom_filter_odd {α : Type} :
    ∀ (l : List α) (n : ℕ),
      (((List.enumFrom n l).filter (fun q => q.1 % 2 == 1)).map Prod.snd) =
        if n % 2 = 1 then everyOther l else everyOther (l.drop 1) := by
  intro l
  induction l with
  | nil => intro n; simp [everyOther]
  | cons a t ih =>
    intro n
    rw [List.enumFrom_cons]
    by_cases h : n % 2 = 1
    · have h1 : (n + 1) % 2 ≠ 1 := by omega
      rw [List.filter_cons_of_pos (by simpa using h)]
      rw [List.map_cons, ih (n + 1), if_neg h1, if_pos h, everyOther_cons]
    · have h1 : (n + 1) % 2 = 1 := by omega
      rw [List.filter_cons_of_neg (by simpa using h)]
      rw [ih (n + 1), if_pos h1, if_neg h]
      rfl

/-- slices[1::2] is exactly the odd-position entries of the run list. -/
theorem everyOther_drop_one_eq_oddEntries {α : Type} (l : List α) :
    everyOther (l.drop 1) = oddEntries l := by
  unfold oddEntries
  rw [enumFrom_filter_odd l 0]
  simp

theorem scan_ils_ok_some_imp_body (beam : String) (dots h : List (Option ℚ))
    (ss se c st : ℕ) (hs : scan_ils beam dots h ss se = .ok (some (c, st))) :
    scan_ils_body beam dots h ss se = .ok (some (c, st)) := by
  unfold scan_ils at hs
  split at hs
  · exact absurd hs (by simp)
  · split at hs
    · exact absurd hs (by simp)
    · split at hs
      · exact absurd hs (by simp)
      · exact hs

theorem scan_ils_body_ok_some_iff (beam : String) (dots h : List (Option ℚ)) (ss se c st : ℕ) :
    scan_ils_body beam dots h ss se = .ok (some (c, st)) ↔
      (scan_ils_lost_adj beam dots h ss se = .ok (some st) ∧
       scan_ils_capture dots ss st = .ok (some c)) := by
  unfold scan_ils_body
  constructor
  · intro hb
    split at hb
    · exact absurd hb (by simp)
    · exact absurd hb (by simp)
    · next lost hadj =>
      split at hb
      · exact absurd hb (by simp)
      · exact absurd hb (by simp)
      · next cap hcap =>
        have hpair := Option.some.inj (Except.ok.inj hb)
        have h1 : cap = c := congrArg Prod.fst hpair
        have h2 : lost = st := congrArg Prod.snd hpair
        rw [← h1, ← h2]
        exact ⟨hadj, hcap⟩
  · rintro ⟨hadj, hcap⟩
    rw [hadj]
    dsimp only
    rw [hcap]

theorem scan_ils_lost_adj_inv (beam : String) (dots h : List (Option ℚ)) (ss se st : ℕ)
    (hadj : scan_ils_lost_adj beam dots h ss se = .ok (some st)) :
    ∃ l0, scan_ils_loss dots ss se = .ok (some l0) ∧
      st = (if beam = "glideslope" then
              match index_at_value_closing_rev h 200 se ss with
              | some i200 => min l0 i200
              | none => l0
            else l0) := by
  unfold scan_ils_lost_adj at hadj
  split at hadj
  · exact absurd hadj (by simp)
  · exact absurd hadj (by simp)
  · next l0 hloss =>
    refine ⟨l0, hloss, ?_⟩
    split at hadj
    · next hbeam =>
      rw [if_pos hbeam]
      split at hadj
      · next i200 h200 =>
        exact (Option.some.inj (Except.ok.inj hadj)).symm
      · next h200 =>
        exact (Option.some.inj (Except.ok.inj hadj)).symm
    · next hbeam =>
      rw [if_neg hbeam]
      exact (Option.some.inj (Except.ok.inj hadj)).symm

theorem scan_ils_body_ok_none_of_capture (beam : String) (dots h : List (Option ℚ))
    (ss se lost : ℕ)
    (hadj : scan_ils_lost_adj beam dots h ss se = .ok (some lost))
    (hcap : scan_ils_capture dots ss lost = .ok none) :
    scan_ils_body beam dots h ss se = .ok none := by
  unfold scan_ils_body
  rw [hadj]
  dsimp only
  rw [hcap]

theorem scan_ils_lost_adj_none_of_loss (beam : String) (dots h : List (Option ℚ))
    (ss se : ℕ) (hloss : scan_ils_loss dots ss se = .ok none) :
    scan_ils_lost_adj beam dots h ss se = .ok none := by
  unfold scan_ils_lost_adj
  rw [hloss]

theorem scan_ils_body_ok_none_of_loss (beam : String) (dots h : List (Option ℚ))
    (ss se : ℕ) (hloss : scan_ils_loss dots ss se = .ok none) :
    scan_ils_body beam dots h ss se = .ok none := by
  unfold scan_ils_body
  rw [scan_ils_lost_adj_none_of_loss beam dots h ss se hloss]

/-- C2 (amended). scan_ils returns None when the search interval holds at
least one but fewer than 5 valid deviation samples, or when the valid
fraction within the tightest valid-edge-to-valid-edge sub-range is below
0.4; with zero valid samples it does not return None but raises a TypeError
(numpy flatnotmasked_edges yields None and the slice arithmetic fails); when
the gate passes, scan_ils continues with the loss and capture scans, so the
gate never by itself prevents an interval from being returned. -/
theorem C2_scan_ils_quality_gate (beam : String) (dots h : List (Option ℚ)) (ss se : ℕ)
    (hbeam : beam = "localizer" ∨ beam = "glideslope") :
    (flatnotmasked_edges (sliceL dots ss se) = none →
      scan_ils beam dots h ss se = .error ("TypeError")) ∧
    (∀ f l, flatnotmasked_edges (sliceL dots ss se) = some (f, l) →
      (ma_count (sliceL dots ss se) < 5 ∨ frac_valid dots ss f l < 2 / 5) →
      scan_ils beam dots h ss se = .ok none) ∧
    (∀ f l, flatnotmasked_edges (sliceL dots ss se) = some (f, l) →
      ¬(ma_count (sliceL dots ss se) < 5 ∨ frac_valid dots ss f l < 2 / 5) →
      scan_ils beam dots h ss se = scan_ils_body beam dots h ss se) := by
  refine ⟨?_, ?_, ?_⟩
  · intro hedges
    unfold scan_ils
    rw [if_neg (not_not_intro hbeam), hedges]
  · intro f l hedges hgate
    unfold scan_ils
    rw [if_neg (not_not_intro hbeam), hedges]
    exact if_pos hgate
  · intro f l hedges hgate
    unfold scan_ils
    rw [if_neg (not_not_intro hbeam), hedges]
    exact if_neg hgate

/-- C2 counterexample: a search interval with zero valid samples (fewer than
5) does not yield None — scan_ils raises a TypeError instead. -/
theorem C2_counterexample :
    ma_count (sliceL (List.replicate 6 (none : Option ℚ)) 0 6) = 0 ∧
    scan_ils "localizer" (List.replicate 6 (none : Option ℚ))
        (List.replicate 6 (some (0 : ℚ))) 0 6 = .error ("TypeError") ∧
    scan_ils "localizer" (List.replicate 6 (none : Option ℚ))
        (List.replicate 6 (some (0 : ℚ))) 0 6 ≠ .ok none := by
  refine ⟨rfl, rfl, by decide⟩

/-- C2 witness: three valid samples in the interval trip the under-5 gate
and scan_ils returns None. -/
theorem C2_witness :
    scan_ils "localizer"
        [some (1 : ℚ), some 1, some 1, none, none, none]
        (List.replicate 6 (some (0 : ℚ))) 0 6 = .ok none :=
  (C2_scan_ils_quality_gate "localizer"
      [some (1 : ℚ), some 1, some 1, none, none, none]
      (List.replicate 6 (some (0 : ℚ))) 0 6 (Or.inl rfl)).2.1 0 2
    (by decide) (Or.inl (by decide))

/-- C1. For the glideslope beam, whenever scan_ils returns an interval and
the backward closing search finds the index where height last passed 200 ft,
the interval stop is at most that index, and at most the minimum of the
deviation-based loss index and that index. -/
theorem C1_glideslope_height_clip (dots h : List (Option ℚ)) (ss se c st i200 : ℕ)
    (hscan : scan_ils "glideslope" dots h ss se = .ok (some (c, st)))
    (h200 : index_at_value_closing_rev h 200 se ss = some i200) :
    st ≤ i200 ∧ ∀ dl, scan_ils_loss dots ss se = .ok (some dl) → st ≤ min dl i200 := by
  have hbody := scan_ils_ok_some_imp_body "glideslope" dots h ss se c st hscan
  obtain ⟨hadj, hcap⟩ := (scan_ils_body_ok_some_iff "glideslope" dots h ss se c st).mp hbody
  obtain ⟨l0, hloss, hst⟩ := scan_ils_lost_adj_inv "glideslope" dots h ss se st hadj
  rw [if_pos (rfl : "glideslope" = "glideslope"), h200] at hst
  have hst2 : st = min l0 i200 := hst
  constructor
  · rw [hst2]; exact min_le_right l0 i200
  · intro dl hdl
    rw [hloss] at hdl
    have hdleq : l0 = dl := Option.some.inj (Except.ok.inj hdl)
    rw [← hdleq, ← hst2]

/-- C1 witness: a glideslope approach established from the start whose
height drops through 200 ft at index 8; the returned stop index 7 equals the
height clip and is at most the deviation loss index 12. -/
theorem C1_witness :
    scan_ils "glideslope" (List.replicate 12 (some ((1 : ℚ) / 2)))
        (List.replicate 8 (some (300 : ℚ)) ++ List.replicate 4 (some (150 : ℚ)))
        0 12 = .ok (some (0, 7)) ∧
    index_at_value_closing_rev
        (List.replicate 8 (some (300 : ℚ)) ++ List.replicate 4 (some (150 : ℚ)))
        200 12 0 = some 7 ∧
    (7 : ℕ) ≤ 7 ∧
    scan_ils_loss (List.replicate 12 (some ((1 : ℚ) / 2))) 0 12 = .ok (some 12) ∧
    (7 : ℕ) ≤ min 12 7 := by
  refine ⟨by decide, by decide, ?_, by decide, ?_⟩
  · exact (C1_glideslope_height_clip (List.replicate 12 (some ((1 : ℚ) / 2)))
      (List.replicate 8 (some (300 : ℚ)) ++ List.replicate 4 (some (150 : ℚ)))
      0 12 0 7 7 (by decide) (by decide)).1
  · exact (C1_glideslope_height_clip (List.replicate 12 (some ((1 : ℚ) / 2)))
      (List.replicate 8 (some (300 : ℚ)) ++ List.replicate 4 (some (150 : ℚ)))
      0 12 0 7 7 (by decide) (by decide)).2 12 (by decide)

/-- C4. For inputs passing the quality gate: when the last valid absolute
deviation of the search interval is below 2.5 dots the loss index is that
absolute last-valid index plus one; otherwise it is the last backward
crossing of 2.5 dots from the interval end, and when no such crossing
exists scan_ils returns None. -/
theorem C4_loss_index (beam : String) (dots h : List (Option ℚ)) (ss se f l : ℕ)
    (hbeam : beam = "localizer" ∨ beam = "glideslope")
    (hedges : flatnotmasked_edges (sliceL dots ss se) = some (f, l))
    (hgate : ¬(ma_count (sliceL dots ss se) < 5 ∨ frac_valid dots ss f l < 2 / 5))
    (li : ℕ) (lv : ℚ)
    (hlast : last_valid_sample (sliceL (abs_map dots) ss se) = some (li, lv)) :
    (lv < 5 / 2 → scan_ils_loss dots ss se = .ok (some (ss + li + 1))) ∧
    (¬lv < 5 / 2 →
      scan_ils_loss dots ss se = .ok (index_at_value_rev (abs_map dots) (5 / 2) se ss) ∧
      (index_at_value_rev (abs_map dots) (5 / 2) se ss = none →
        scan_ils beam dots h ss se = .ok none)) := by
  refine ⟨?_, ?_⟩
  · intro hlt
    unfold scan_ils_loss
    dsimp only
    rw [hlast]
    dsimp only
    rw [if_pos hlt]
  · intro hge
    have hlosseq : scan_ils_loss dots ss se =
        .ok (index_at_value_rev (abs_map dots) (5 / 2) se ss) := by
      unfold scan_ils_loss
      dsimp only
      rw [hlast]
      dsimp only
      rw [if_neg hge]
    refine ⟨hlosseq, ?_⟩
    intro hnone
    have hlossnone : scan_ils_loss dots ss se = .ok none := by
      rw [hlosseq, hnone]
    have hbody := scan_ils_body_ok_none_of_loss beam dots h ss se hlossnone
    unfold scan_ils
    rw [if_neg (not_not_intro hbeam), hedges]
    dsimp only
    rw [if_neg hgate, hbody]

/-- C4 witness: a fully valid interval ending inside 2.5 dots gives loss
index last-valid-plus-one; an interval that never comes inside 2.5 dots has
no backward crossing and scan_ils returns None. -/
theorem C4_witness :
    scan_ils_loss (List.replicate 12 (some ((1 : ℚ) / 2))) 0 12 = .ok (some 12) ∧
    scan_ils "localizer" (List.replicate 6 (some (3 : ℚ)))
        (List.replicate 6 (some (0 : ℚ))) 0 6 = .ok none := by
  constructor
  · exact (C4_loss_index "localizer" (List.replicate 12 (some ((1 : ℚ) / 2)))
      (List.replicate 12 (some (0 : ℚ))) 0 12 0 11 (Or.inl rfl) (by decide) (by decide)
      11 (1 / 2) (by decide)).1 (by decide)
  · exact ((C4_loss_index "localizer" (List.replicate 6 (some (3 : ℚ)))
      (List.replicate 6 (some (0 : ℚ))) 0 6 0 5 (Or.inl rfl) (by decide) (by decide)
      5 3 (by decide)).2 (by decide)).2 (by decide)

/-- C5 counterexample: the backward 2.5-dot search finds nothing and the
first valid absolute deviation is below 1.0 dot, yet the capture index is 1
(the index of the first valid sample), not the interval start 0 — the first
sample of the interval is masked. -/
theorem C5_counterexample :
    scan_ils "localizer" ((none : Option ℚ) :: List.replicate 9 (some ((1 : ℚ) / 2)))
        (List.replicate 10 (some (300 : ℚ))) 0 10 = .ok (some (1, 10)) ∧
    index_at_value_rev (abs_map ((none : Option ℚ) :: List.replicate 9 (some ((1 : ℚ) / 2))))
        (5 / 2) 10 0 = none ∧
    first_valid_sample (sliceL (abs_map ((none : Option ℚ) ::
        List.replicate 9 (some ((1 : ℚ) / 2)))) 0 10) = some (1, 1 / 2) ∧
    (1 : ℕ) ≠ 0 :=
  ⟨by decide, by decide, by decide, by decide⟩

/-- C5 (amended). When the backward 2.5-dot search from the loss index finds
no crossing (or the Python-falsy index 0): if the first valid sample between
the interval start and the loss index has absolute deviation below 1.0 dot,
the capture index is the index of that first valid sample (equal to the
interval start only when the first sample is valid); otherwise the capture
index is the first forward crossing of 1.0 dot from the interval start, and
scan_ils returns None when that crossing does not exist. -/
theorem C5_capture_index (dots : List (Option ℚ)) (ss lost : ℕ)
    (hrev : index_at_value_rev (abs_map dots) (5 / 2) lost ss = none ∨
            index_at_value_rev (abs_map dots) (5 / 2) lost ss = some 0) :
    (∀ fi fv, first_valid_sample (sliceL (abs_map dots) ss lost) = some (fi, fv) →
      (fv < 1 → scan_ils_capture dots ss lost = .ok (some (ss + fi))) ∧
      (¬fv < 1 →
        scan_ils_capture dots ss lost = .ok (index_at_value_fwd (abs_map dots) 1 ss lost))) ∧
    (∀ (beam : String) (h : List (Option ℚ)) (se f l : ℕ),
      (beam = "localizer" ∨ beam = "glideslope") →
      flatnotmasked_edges (sliceL dots ss se) = some (f, l) →
      ¬(ma_count (sliceL dots ss se) < 5 ∨ frac_valid dots ss f l < 2 / 5) →
      scan_ils_lost_adj beam dots h ss se = .ok (some lost) →
      scan_ils_capture dots ss lost = .ok none →
      scan_ils beam dots h ss se = .ok none) := by
  have hfall : ∀ fi fv, first_valid_sample (sliceL (abs_map dots) ss lost) = some (fi, fv) →
      (fv < 1 → scan_ils_capture dots ss lost = .ok (some (ss + fi))) ∧
      (¬fv < 1 →
        scan_ils_capture dots ss lost = .ok (index_at_value_fwd (abs_map dots) 1 ss lost)) := by
    intro fi fv hfirst
    constructor
    · intro hlt
      unfold scan_ils_capture
      dsimp only
      rcases hrev with hc | hc
      · rw [hc]
        dsimp only
        rw [hfirst]
        dsimp only
        rw [if_pos hlt]
      · rw [hc]
        dsimp only
        rw [if_pos rfl, hfirst]
        dsimp only
        rw [if_pos hlt]
    · intro hge
      unfold scan_ils_capture
      dsimp only
      rcases hrev with hc | hc
      · rw [hc]
        dsimp only
        rw [hfirst]
        dsimp only
        rw [if_neg hge]
      · rw [hc]
        dsimp only
        rw [if_pos rfl, hfirst]
        dsimp only
        rw [if_neg hge]
  refine ⟨hfall, ?_⟩
  intro beam h se f l hbeam hedges hgate hadj hcap
  have hbody := scan_ils_body_ok_none_of_capture beam dots h ss se lost hadj hcap
  unfold scan_ils
  rw [if_neg (not_not_intro hbeam), hedges]
  dsimp only
  rw [if_neg hgate, hbody]

/-- C5 witness: with the first sample masked and the rest steady at half a
dot, the capture index is the first valid index 1; with the deviation
steady at 2 dots (inside 2.5 but outside 1.0) and no forward crossing of
1.0, scan_ils returns None. -/
theorem C5_witness :
    scan_ils_capture ((none : Option ℚ) :: List.replicate 9 (some ((1 : ℚ) / 2))) 0 10 =
      .ok (some 1) ∧
    scan_ils "localizer" (List.replicate 8 (some (2 : ℚ)))
        (List.replicate 8 (some (0 : ℚ))) 0 8 = .ok none := by
  constructor
  · exact ((C5_capture_index ((none : Option ℚ) :: List.replicate 9 (some ((1 : ℚ) / 2)))
      0 10 (Or.inl (by decide))).1 1 (1 / 2) (by decide)).1 (by decide)
  · exact (C5_capture_index (List.replicate 8 (some (2 : ℚ))) 0 8
      (Or.inl (by decide))).2 "localizer" (List.replicate 8 (some (0 : ℚ))) 8 0 7
      (Or.inl rfl) (by decide) (by decide) (by decide) (by decide)

/-- C6. Gear transit modes: supplying a non-empty strict subset of the three
red-warning signals raises the DataFrameError carrying the node name and the
aircraft-frame name, for both GearExtending and GearRetracting; supplying
none selects the discrete-edge mode whose every phase spans exactly
5.0 times the sample rate; with all three supplied and the first valid
sample of the combined flicker signal False, the moving runs are the
odd-indexed runs of the clump list. -/
theorem C6_gear_modes :
    (∀ (gd : List Bool) (wl wn wr : Option (List Bool)) (fr : Option String)
        (airs : List (ℕ × ℕ)) (freq : ℚ),
      (wl.isSome || wn.isSome || wr.isSome) = true →
      (wl.isSome && wn.isSome && wr.isSome) = false →
      gear_extending_derive gd wl wn wr fr airs freq = .error ("Gear Extending", fr) ∧
      gear_retracting_derive gd wl wn wr fr airs freq = .error ("Gear Retracting", fr)) ∧
    (∀ (gd : List Bool) (fr : Option String) (airs : List (ℕ × ℕ)) (freq : ℚ)
        (ps : List (ℚ × ℚ)),
      (gear_extending_derive gd none none none fr airs freq = .ok ps ∨
       gear_retracting_derive gd none none none fr airs freq = .ok ps) →
      ∀ p ∈ ps, p.2 - p.1 = 5 * freq) ∧
    (∀ gw : List Bool, gw.head? = some false →
      gear_moving_runs gw = oddEntries (ezclump gw)) := by
  refine ⟨?_, ?_, ?_⟩
  · intro gd wl wn wr fr airs freq h1 h2
    constructor
    · unfold gear_extending_derive
      rw [if_pos h1, if_pos (by rw [h2]; rfl)]
    · unfold gear_retracting_derive
      rw [if_pos h1, if_pos (by rw [h2]; rfl)]
  · intro gd fr airs freq ps hok p hp
    have hmem : ∃ edges : List ℕ, p ∈ gear_edge_phases edges freq := by
      rcases hok with hok | hok
      · have hdef : gear_extending_derive gd none none none fr airs freq =
            .ok (airs.flatMap (fun air =>
              gear_edge_phases (find_edges_rising gd air.1 air.2) freq)) := rfl
        rw [hdef] at hok
        have hps : ps = airs.flatMap (fun air =>
            gear_edge_phases (find_edges_rising gd air.1 air.2) freq) :=
          (Except.ok.inj hok).symm
        rw [hps] at hp
        rw [List.mem_flatMap] at hp
        obtain ⟨air, _, hp2⟩ := hp
        exact ⟨find_edges_rising gd air.1 air.2, hp2⟩
      · have hdef : gear_retracting_derive gd none none none fr airs freq =
            .ok (airs.flatMap (fun air =>
              gear_edge_phases (find_edges_falling gd air.1 air.2) freq)) := rfl
        rw [hdef] at hok
        have hps : ps = airs.flatMap (fun air =>
            gear_edge_phases (find_edges_falling gd air.1 air.2) freq) :=
          (Except.ok.inj hok).symm
        rw [hps] at hp
        rw [List.mem_flatMap] at hp
        obtain ⟨air, _, hp2⟩ := hp
        exact ⟨find_edges_falling gd air.1 air.2, hp2⟩
    obtain ⟨edges, hp2⟩ := hmem
    unfold gear_edge_phases at hp2
    rw [List.mem_map] at hp2
    obtain ⟨e2, _, hpe⟩ := hp2
    rw [← hpe]
    ring
  · intro gw hhead
    unfold gear_moving_runs
    rw [if_pos (by unfold first_valid_bool; rw [hhead]; rfl)]
    exact everyOther_drop_one_eq_oddEntries (ezclump gw)

/-- C6 witness: two of three warning signals raise the configuration errors;
an edge-mode phase has width 5.0 times the sample rate; a flicker signal
starting False selects the odd runs. -/
theorem C6_witness :
    gear_extending_derive [true] (some [false]) none (some [false]) (some "frame-a") [] 1 =
      .error ("Gear Extending", some "frame-a") ∧
    gear_retracting_derive [true] (some [false]) none (some [false]) (some "frame-a") [] 1 =
      .error ("Gear Retracting", some "frame-a") ∧
    (∀ p ∈ [((1 : ℚ), (6 : ℚ))], p.2 - p.1 = 5 * 1) ∧
    gear_moving_runs [false, true, true, false] =
      oddEntries (ezclump [false, true, true, false]) := by
  refine ⟨?_, ?_, ?_, ?_⟩
  · exact (C6_gear_modes.1 [true] (some [false]) none (some [false]) (some "frame-a") [] 1
      (by decide) (by decide)).1
  · exact (C6_gear_modes.1 [true] (some [false]) none (some [false]) (some "frame-a") [] 1
      (by decide) (by decide)).2
  · exact C6_gear_modes.2.1 [false, true] none [(0, 2)] 1 [((1 : ℚ), (6 : ℚ))]
      (Or.inl (by decide))
  · exact C6_gear_modes.2.2 [false, true, true, false] (by decide)

/-- C7 counterexample: the discrete signal reads Up for the whole recording;
GearRetracted returns the run (0, 2) whose stop equals the recording length
2 without shortening it, while GearExtended on the all-Down recording does
shorten its final run to (0, 1). -/
theorem C7_counterexample :
    gear_retracted_derive [false, false] = [(0, 2)] ∧
    List.length [false, false] = 2 ∧
    gear_extended_derive [true, true] = .ok [(0, 1)] :=
  ⟨by decide, rfl, by decide⟩

/-- C7 (amended). GearRetracted produces exactly the maximal runs where the
gear discrete reads Up, unmodified even at the recording end; GearExtended
produces exactly the maximal runs where it reads Down, with the final run
shortened by one sample exactly when its stop equals the recording length
(and an IndexError when no Down run exists, not covered here). -/
theorem C7_gear_steady_states :
    (∀ (gd : List Bool) (s e : ℕ),
      (s, e) ∈ gear_retracted_derive gd ↔
        (s < e ∧ e ≤ gd.length ∧ (∀ i, s ≤ i → i < e → pAt (fun b => !b) gd i = true) ∧
         (s = 0 ∨ pAt (fun b => !b) gd (s - 1) = false) ∧
         (e = gd.length ∨ pAt (fun b => !b) gd e = false))) ∧
    (∀ (gd : List Bool) (s e : ℕ),
      (s, e) ∈ clumpP (fun b => b) gd ↔
        (s < e ∧ e ≤ gd.length ∧ (∀ i, s ≤ i → i < e → pAt (fun b => b) gd i = true) ∧
         (s = 0 ∨ pAt (fun b => b) gd (s - 1) = false) ∧
         (e = gd.length ∨ pAt (fun b => b) gd e = false))) ∧
    (∀ (gd : List Bool) (s e : ℕ) (rs : List (ℕ × ℕ)),
      clumpP (fun b => b) gd = rs ++ [(s, e)] →
      gear_extended_derive gd =
        .ok (if e = gd.length then rs ++ [(s, e - 1)] else rs ++ [(s, e)])) := by
  refine ⟨?_, ?_, ?_⟩
  · intro gd s e
    unfold gear_retracted_derive
    exact mem_clumpP_iff (fun b => !b) gd s e
  · intro gd s e
    exact mem_clumpP_iff (fun b => b) gd s e
  · intro gd s e rs hcl
    unfold gear_extended_derive
    rw [hcl]
    dsimp only
    rw [List.getLast?_concat]
    dsimp only
    by_cases he : e = gd.length
    · rw [if_pos he, if_pos he, List.dropLast_concat]
    · rw [if_neg he, if_neg he]

/-- C7 witness: the all-Up recording is one maximal Up run reaching the end,
and the all-Down recording has its single run shortened by one sample. -/
theorem C7_witness :
    (0 < 2 ∧ 2 ≤ List.length [false, false] ∧
     (∀ i, 0 ≤ i → i < 2 → pAt (fun b => !b) [false, false] i = true) ∧
     ((0 : ℕ) = 0 ∨ pAt (fun b => !b) [false, false] (0 - 1) = false) ∧
     (2 = List.length [false, false] ∨ pAt (fun b => !b) [false, false] 2 = false)) ∧
    gear_extended_derive [true, true] =
      .ok (if 2 = List.length [true, true] then ([] : List (ℕ × ℕ)) ++ [(0, 1)]
           else [] ++ [(0, 2)]) := by
  constructor
  · exact (C7_gear_steady_states.1 [false, false] 0 2).mp (by decide)
  · exact C7_gear_steady_states.2.2 [true, true] 0 2 [] (by decide)

/-- C8. A turn band is kept by Holding exactly when it is one of the clumped
turn-rate bands, its sample duration strictly exceeds HOLDING_MIN_TIME times
the frequency, and the average groundspeed (endpoint distance over
KTS_TO_MPS over the full duration) is strictly below HOLDING_MAX_GSPD; a
band lasting exactly HOLDING_MIN_TIME is rejected. -/
theorem C8_holding_filter (minTime maxGspd kts2mps freq : ℚ)
    (turnRate lat lon : List ℚ) (hs he : ℕ)
    (dist : ℚ → ℚ → ℚ → ℚ → ℚ) (b : ℕ × ℕ) :
    (b ∈ holding_bands minTime maxGspd kts2mps freq turnRate lat lon hs he dist ↔
      (b ∈ (clumpP (fun x => decide ((1 : ℚ) / 2 ≤ x)) (sliceQ turnRate hs he)).map
          (fun r => (r.1 + hs, r.2 + hs)) ∧
       minTime * freq < ((b.2 - b.1 : ℕ) : ℚ) ∧
       dist (lat.getD b.1 0) (lon.getD b.1 0) (lat.getD (b.2 - 1) 0) (lon.getD (b.2 - 1) 0)
           / kts2mps / ((b.2 - b.1 : ℕ) : ℚ) < maxGspd)) ∧
    (((b.2 - b.1 : ℕ) : ℚ) = minTime * freq →
      b ∉ holding_bands minTime maxGspd kts2mps freq turnRate lat lon hs he dist) := by
  have hiff : b ∈ holding_bands minTime maxGspd kts2mps freq turnRate lat lon hs he dist ↔
      (b ∈ (clumpP (fun x => decide ((1 : ℚ) / 2 ≤ x)) (sliceQ turnRate hs he)).map
          (fun r => (r.1 + hs, r.2 + hs)) ∧
       minTime * freq < ((b.2 - b.1 : ℕ) : ℚ) ∧
       dist (lat.getD b.1 0) (lon.getD b.1 0) (lat.getD (b.2 - 1) 0) (lon.getD (b.2 - 1) 0)
           / kts2mps / ((b.2 - b.1 : ℕ) : ℚ) < maxGspd) := by
    unfold holding_bands
    rw [List.mem_filter]
    simp only [decide_eq_true_eq]
  refine ⟨hiff, ?_⟩
  intro heq hmem
  have := (hiff.mp hmem).2.1
  rw [heq] at this
  exact lt_irrefl _ this

/-- C8 witness: a 12-sample turn band passes (duration 12 exceeds 10, zero
distance groundspeed below the ceiling); a band of exactly the minimum
duration is rejected. -/
theorem C8_witness :
    (0, 12) ∈ holding_bands 10 100 1 1 (List.replicate 12 (1 : ℚ))
      (List.replicate 12 (0 : ℚ)) (List.replicate 12 (0 : ℚ)) 0 12
      (fun _ _ _ _ => 0) ∧
    (0, 10) ∉ holding_bands 10 100 1 1 (List.replicate 10 (1 : ℚ))
      (List.replicate 10 (0 : ℚ)) (List.replicate 10 (0 : ℚ)) 0 10
      (fun _ _ _ _ => 0) := by
  constructor
  · exact (C8_holding_filter 10 100 1 1 (List.replicate 12 (1 : ℚ))
      (List.replicate 12 (0 : ℚ)) (List.replicate 12 (0 : ℚ)) 0 12
      (fun _ _ _ _ => 0) (0, 12)).1.mpr ⟨by decide, by decide, by decide⟩
  · exact (C8_holding_filter 10 100 1 1 (List.replicate 10 (1 : ℚ))
      (List.replicate 10 (0 : ℚ)) (List.replicate 10 (0 : ℚ)) 0 10
      (fun _ _ _ _ => 0) (0, 10)).2 (by decide)

/-- C3 counterexample: grounded (0, 10) overlaps takeoff (0, 5), so TaxiOut
produces the interval (1, -1) with start greater than stop (and a negative
stop, so the failure is not confined to the data boundary case). -/
theorem C3_counterexample :
    taxi_out_derive [(0, 10)] [(0, 5)] = [(1, -1)] ∧ ¬((1 : ℤ) ≤ -1) :=
  ⟨by decide, by decide⟩

/-- C3 (amended). Cruise intervals always satisfy start ≤ stop (the stop is
forced to start + 1 when needed); TaxiOut intervals satisfy start ≤ stop
provided every grounded interval starts at least two samples before the
first takeoff start — with a smaller gap TaxiOut emits start > stop. -/
theorem C3_interval_order :
    (∀ (gnds toffs : List (ℕ × ℕ)) (q : ℤ × ℤ), q ∈ taxi_out_derive gnds toffs →
      (∀ gnd ∈ gnds, ∀ toff ∈ toffs.take 1, gnd.1 + 2 ≤ toff.1) → q.1 ≤ q.2) ∧
    (∀ (ccds : List (ℕ × ℕ)) (tocs tods : List ℕ) (q : ℕ × ℕ),
      q ∈ cruise_derive ccds tocs tods → q.1 ≤ q.2) := by
  constructor
  · intro gnds toffs q hq hgap
    cases toffs with
    | nil => exact absurd hq (by simp [taxi_out_derive])
    | cons toff rest =>
      unfold taxi_out_derive at hq
      rw [List.mem_filterMap] at hq
      obtain ⟨gnd, hgnd, hcond⟩ := hq
      by_cases hov : slices_overlap gnd toff = true
      · rw [if_pos hov] at hcond
        have hle := hgap gnd hgnd toff (by simp)
        have hqe : ((gnd.1 : ℤ) + 1, (toff.1 : ℤ) - 1) = q := Option.some.inj hcond
        rw [← hqe]
        dsimp only
        omega
      · rw [if_neg hov] at hcond
        exact absurd hcond (by simp)
  · intro ccds tocs tods q hq
    unfold cruise_derive at hq
    rw [List.mem_map] at hq
    obtain ⟨ccd, _, hqe⟩ := hq
    rw [← hqe]
    dsimp only
    split
    · omega
    · next hgt => omega

/-- C3 witness: grounded (0, 10) and takeoff (3, 8) give the TaxiOut phase
(1, 2) with start ≤ stop, and a Cruise slice with no tops keeps its own
bounds. -/
theorem C3_witness :
    ((1 : ℤ), (2 : ℤ)) ∈ taxi_out_derive [(0, 10)] [(3, 8)] ∧
    ((1 : ℤ), (2 : ℤ)).1 ≤ ((1 : ℤ), (2 : ℤ)).2 ∧
    ((0 : ℕ), (10 : ℕ)) ∈ cruise_derive [(0, 10)] [] [] ∧
    ((0 : ℕ), (10 : ℕ)).1 ≤ ((0 : ℕ), (10 : ℕ)).2 := by
  refine ⟨by decide, ?_, by decide, ?_⟩
  · exact C3_interval_order.1 [(0, 10)] [(3, 8)] ((1 : ℤ), (2 : ℤ)) (by decide) (by decide)
  · exact C3_interval_order.2 [(0, 10)] [] [] ((0 : ℕ), (10 : ℕ)) (by decide)

/-- C9 counterexample: a single fast slice anchored at index 2, constant
heading (no turn-onto-runway crossing, so the phase start falls back to the
5-minute boundary clipped at 0) and an altitude trace that does climb
through the 35 ft threshold at index 3 — the claim requires the phase
(0, 3), but the Python truthiness test drops a zero start index and Takeoff
creates no phase at all. -/
theorem C9_counterexample :
    takeoff_derive 15 35 1 1 (List.replicate 8 (some (0 : ℚ)))
        [some (0 : ℚ), some 0, some 0, some 10, some 40, some 50, some 50, some 50]
        [(some 2, some 6)] = [] ∧
    index_at_value_fwd
        [some (0 : ℚ), some 0, some 0, some 10, some 40, some 50, some 50, some 50]
        35 2 (2 + 300 * 1) = some 3 ∧
    index_at_value_rev (head_dev (List.replicate 8 (some (0 : ℚ))) 2) 15 2 (2 - 300 * 1) =
      none ∧
    (2 : ℕ) - 300 * 1 = 0 :=
  ⟨by decide, by decide, by decide, by decide⟩

/-- C9 (amended). Per fast-slice anchor with a defined start: the phase
start is the backward crossing of the turn-onto-runway threshold within
5 minutes of the anchor, falling back to the clipped 5-minute boundary; the
end is the forward crossing of the initial-climb threshold within
5 minutes; no phase is created for the anchor when the altitude crossing is
missing, and also when either computed index is zero (the Python truthiness
test, which in particular drops the clipped boundary 0); a fast slice with
an undefined start stops all processing. -/
theorem C9_takeoff_boundaries (tT cT : ℚ) (hf af : ℕ) (head alt : List (Option ℚ))
    (run : ℕ) (e : Option ℕ) (rest : List (Option ℕ × Option ℕ)) :
    (takeoff_derive tT cT hf af head alt ((none, e) :: rest) = []) ∧
    (index_at_value_fwd alt cT run (run + 300 * af) = none →
      takeoff_derive tT cT hf af head alt ((some run, e) :: rest) =
        takeoff_derive tT cT hf af head alt rest) ∧
    (∀ te, index_at_value_fwd alt cT run (run + 300 * af) = some te →
      ((index_at_value_rev (head_dev head run) tT run (run - 300 * hf)).getD
          (run - 300 * hf) ≠ 0 ∧ te ≠ 0 →
        takeoff_derive tT cT hf af head alt ((some run, e) :: rest) =
          ((index_at_value_rev (head_dev head run) tT run (run - 300 * hf)).getD
              (run - 300 * hf), te) ::
            takeoff_derive tT cT hf af head alt rest) ∧
      (¬((index_at_value_rev (head_dev head run) tT run (run - 300 * hf)).getD
          (run - 300 * hf) ≠ 0 ∧ te ≠ 0) →
        takeoff_derive tT cT hf af head alt ((some run, e) :: rest) =
          takeoff_derive tT cT hf af head alt rest)) := by
  refine ⟨rfl, ?_, ?_⟩
  · intro hnone
    show takeoff_phase_for tT cT hf af head alt run ++
        takeoff_derive tT cT hf af head alt rest = takeoff_derive tT cT hf af head alt rest
    unfold takeoff_phase_for
    dsimp only
    rw [hnone]
    rfl
  · intro te hte
    constructor
    · intro hok
      show takeoff_phase_for tT cT hf af head alt run ++
          takeoff_derive tT cT hf af head alt rest = _
      unfold takeoff_phase_for
      dsimp only
      rw [hte]
      dsimp only
      rw [if_pos hok]
      rfl
    · intro hbad
      show takeoff_phase_for tT cT hf af head alt run ++
          takeoff_derive tT cT hf af head alt rest = takeoff_derive tT cT hf af head alt rest
      unfold takeoff_phase_for
      dsimp only
      rw [hte]
      dsimp only
      rw [if_neg hbad]
      rfl

/-- C9 witness: with a heading turn at index 2 and an altitude crossing of
35 ft at index 4, the anchor at index 3 yields the phase (2, 4). -/
theorem C9_witness :
    takeoff_derive 15 35 1 1
        [some (0 : ℚ), some 20, some 0, some 0, some 0, some 0, some 0, some 0]
        [some (0 : ℚ), some 0, some 0, some 0, some 30, some 40, some 50, some 50]
        [(some 3, some 6)] = [(2, 4)] := by
  have h := ((C9_takeoff_boundaries 15 35 1 1
      [some (0 : ℚ), some 20, some 0, some 0, some 0, some 0, some 0, some 0]
      [some (0 : ℚ), some 0, some 0, some 0, some 30, some 40, some 50, some 50]
      3 (some 6) []).2.2 4 (by decide)).1 (by decide)
  rw [h]
  decide

/-- C10. Under strict alternation of the extremum values the
ClimbCruiseDescent walking loop advances its index on every iteration and
terminates within vals.length iterations; without alternation, the branch
where three consecutive extrema do not make a down-up-down hump leaves the
index unchanged, so the loop never terminates. -/
theorem C10_ccd_walk (idxs : List ℕ) (vals : List ℚ) :
    (ccd_alternating vals →
      (∀ n, n + 1 < vals.length → n < (ccd_step idxs vals n).1) ∧
      (∀ fuel n, vals.length ≤ fuel + n →
        (ccd_loop idxs vals (fuel + 1) n).isSome = true)) ∧
    (∀ n, ¬(vals.getD (n + 1) 0 < vals.getD n 0) → n + 2 < vals.length →
      ¬(vals.getD (n + 2) 0 < vals.getD (n + 1) 0) → (ccd_step idxs vals n).1 = n) := by
  constructor
  · intro halt
    have hstep : ∀ n, n + 1 < vals.length → n < (ccd_step idxs vals n).1 := by
      intro n hn
      unfold ccd_step
      by_cases h1 : vals.getD (n + 1) 0 < vals.getD n 0
      · rw [if_pos h1]
        exact Nat.lt_succ_self n
      · rw [if_neg h1]
        by_cases h2 : n + 2 < vals.length
        · rw [if_pos h2]
          have hne := halt.1 n (by omega)
          have hup : vals.getD n 0 < vals.getD (n + 1) 0 :=
            lt_of_le_of_ne (not_lt.mp h1) hne
          have hdown : vals.getD (n + 2) 0 < vals.getD (n + 1) 0 :=
            (halt.2 n (by omega)).mp hup
          rw [if_pos hdown]
          omega
        · rw [if_neg h2]
          exact Nat.lt_succ_self n
    refine ⟨hstep, ?_⟩
    intro fuel
    induction fuel with
    | zero =>
      intro n hn
      unfold ccd_loop
      rw [if_neg (by omega)]
      rfl
    | succ f ih =>
      intro n hn
      unfold ccd_loop
      by_cases hlt : n < vals.length - 1
      · rw [if_pos hlt]
        have hp := hstep n (by omega)
        dsimp only
        rw [if_neg (by omega : ¬(ccd_step idxs vals n).1 = n)]
        have := ih (ccd_step idxs vals n).1 (by omega)
        simpa using this
      · rw [if_neg hlt]
        rfl
  · intro n h1 h2 h3
    unfold ccd_step
    rw [if_neg h1, if_pos h2, if_neg h3]

/-- C10 witness: a strictly alternating trough-peak-trough-peak value
sequence advances from every index and the loop terminates; a rising
non-alternating triple leaves the index unchanged. -/
theorem C10_witness :
    (0 < (ccd_step [0, 5, 9, 14] [(0 : ℚ), 10, 2, 8] 0).1) ∧
    (ccd_loop [0, 5, 9, 14] [(0 : ℚ), 10, 2, 8] (4 + 1) 0).isSome = true ∧
    (ccd_step [0, 5, 9] [(0 : ℚ), 100, 200] 0).1 = 0 := by
  refine ⟨?_, ?_, ?_⟩
  · exact ((C10_ccd_walk [0, 5, 9, 14] [(0 : ℚ), 10, 2, 8]).1 (by constructor <;> decide)).1
      0 (by decide)
  · exact ((C10_ccd_walk [0, 5, 9, 14] [(0 : ℚ), 10, 2, 8]).1 (by constructor <;> decide)).2
      4 0 (by decide)
  · exact (C10_ccd_walk [0, 5, 9] [(0 : ℚ), 100, 200]).2 0 (by decide) (by decide) (by decide)
